import Mathlib

/-!
Shallow embedding of the synchronization / reconciliation engine of
`src/MainWindow.py` (the `refresh_values` / `update_loop` logic of the
wallet window), together with theorems settling the specification claims.

The Python data values flowing through `refresh_values` are embedded as
Lean structures; the imperative GTK mutations are embedded as explicit
state passing over a `View` record capturing the five mutable pieces of
displayed state; the four RPC calls are embedded as an `Oracle` of
optional responses (`none` = the call raises), and the cycle returns the
list of requests actually issued, the resulting view state, and whether
the cycle ran to completion.
-/

/-- One entry of a transaction's `transfers` list: `{address, amount}`. -/
structure Transfer where
  address : String
  amount  : Int
deriving Repr, DecidableEq

/-- A raw transaction as returned by `getTransactions`. -/
structure RawTransaction where
  amount     : Int
  fee        : Int
  unlockTime : Int
  timestamp  : Int
  transfers  : List Transfer
deriving Repr, DecidableEq

/-- A block entry of the `getTransactions` response (`items`). -/
structure Block where
  transactions : List RawTransaction
deriving Repr, DecidableEq

/-- The `getBalance` response fields used by the code. -/
structure Balances where
  availableBalance : Int
  lockedAmount     : Int
deriving Repr, DecidableEq

/-- The `getStatus` response fields used by the code. -/
structure Status where
  blockCount : Int
  peerCount  : Int
deriving Repr, DecidableEq

/-- Split a reversed digit string into groups of three, least significant
first — the grouping underlying Python's thousands separator. -/
def chunk3Rev : List Char → List (List Char)
  | [] => []
  | [a] => [[a]]
  | [a, b] => [[a, b]]
  | a :: b :: c :: rest => [a, b, c] :: chunk3Rev rest

/-- Render a natural number with a comma every three digits, as Python's
format specifier comma option does for the integer part. -/
def groupedNat (n : Nat) : String :=
  String.mk (((chunk3Rev (toString n).data.reverse).intersperse [',']).flatten.reverse)

/-- Render `m < 100` as exactly two decimal digits. -/
def twoDigits (m : Nat) : String :=
  String.mk [Nat.digitChar (m / 10 % 10), Nat.digitChar (m % 10)]

/-- Unsigned part of the currency rendering: `a` smallest-units, shown as
grouped integer part, a dot, and two fractional digits. -/
def formatCurrencyCore (a : Nat) : String :=
  groupedNat (a / 100) ++ "." ++ twoDigits (a % 100)

/-- Round `num / den` to the nearest integer, ties to even — the rounding
mode of CPython's int-to-float conversion, of IEEE-754 double division,
and of the two-decimal float formatting. -/
def roundHalfEven (num den : Nat) : Nat :=
  if 2 * (num % den) < den then num / den
  else if den < 2 * (num % den) then num / den + 1
  else if (num / den) % 2 = 0 then num / den else num / den + 1

/-- Fuel-driven bit counting, written with structural recursion so that
concrete evaluation reduces inside the kernel. -/
def bitLenAux : Nat → Nat → Nat
  | 0, _ => 0
  | fuel + 1, m => if m = 0 then 0 else bitLenAux fuel (m / 2) + 1

/-- Bit length of a natural number: 0 for 0, and the unique `k` with
`2 ^ (k - 1) ≤ n < 2 ^ k` for positive `n`. -/
def bitLen (n : Nat) : Nat := bitLenAux n n

/-- The value of the IEEE-754 double nearest to the integer `n` (53-bit
significand, round to nearest, ties to even), as CPython's int-to-float
conversion computes it.  Integers beyond the double range, where Python
raises OverflowError instead, are outside the model. -/
def nearestDoubleNat (n : Nat) : Nat :=
  if n ≤ 2 ^ 53 then n
  else roundHalfEven n (2 ^ (bitLen n - 53)) * 2 ^ (bitLen n - 53)

/-- The IEEE-754 double nearest to `d1 / 100`, as a pair `(s, f)` of
value `s * 2 ^ f`: the quotient lies between `2 ^ 59 / 100` and
`2 ^ 60 / 100` times `2 ^ (bitLen d1 - 60)`, so its significand is found
at one of two candidate exponents; if rounding at the lower exponent
needs 54 bits, the upper exponent is used. -/
def divideBy100 (d1 : Nat) : Nat × Int :=
  if d1 = 0 then (0, 0)
  else if roundHalfEven (d1 * 2 ^ (60 - bitLen d1)) (100 * 2 ^ (bitLen d1 - 60)) < 2 ^ 53 then
    (roundHalfEven (d1 * 2 ^ (60 - bitLen d1)) (100 * 2 ^ (bitLen d1 - 60)),
     (bitLen d1 : Int) - 60)
  else
    (roundHalfEven (d1 * 2 ^ (60 - bitLen d1)) (200 * 2 ^ (bitLen d1 - 60)),
     (bitLen d1 : Int) - 59)

/-- The integer cent count a two-decimal float format displays for the
double of value `s * 2 ^ f`: the value times 100, rounded to the nearest
integer with ties to even. -/
def centsOfDouble (s : Nat) (f : Int) : Nat :=
  if 0 ≤ f then 100 * s * 2 ^ f.toNat
  else roundHalfEven (100 * s) (2 ^ (-f).toNat)

/-- The cent count Python displays for the non-negative integer amount
`a`: `a` is converted to a double (one rounding), divided by the float
literal `100.` (a second rounding), and formatted to two decimal places
(a third rounding). -/
def pyDisplayCents (a : Nat) : Nat :=
  centsOfDouble (divideBy100 (nearestDoubleNat a)).1 (divideBy100 (nearestDoubleNat a)).2

/-- Embedding of the Python expression of lines 68/69/113,
`format(amount/100.)` with a comma/two-decimal float format spec, applied
to an integer `amount`: the amount passes through float conversion, float
division by 100 and two-decimal rounding, and the resulting cent count is
rendered with thousands separators and exactly two decimal places,
negative amounts with a leading minus. -/
def formatCurrency (amount : Int) : String :=
  if amount < 0 then "-" ++ formatCurrencyCore (pyDisplayCents amount.natAbs)
  else formatCurrencyCore (pyDisplayCents amount.natAbs)

/-- The spec's description of the rendering, for comparison with the
program's `formatCurrency`: the amount divided by 100 in exact decimal
arithmetic, rendered with thousands separators and exactly two decimal
places, negative amounts with a leading minus. -/
def decimalCurrency (amount : Int) : String :=
  if amount < 0 then "-" ++ formatCurrencyCore amount.natAbs
  else formatCurrencyCore amount.natAbs

/-- Embedding of lines 93–98: the `desired_transfer_amount` local of
`refresh_values`. -/
def desired_transfer_amount (t : RawTransaction) : Int :=
  if t.amount < 0 then (t.amount + t.fee) * (-1) else t.amount

/-- Embedding of lines 92 and 100–103: `address` starts as `None` and the
loop over `transfers` overwrites it on every entry whose amount equals the
desired amount (no early exit). -/
def findAddress (transfers : List Transfer) (target : Int) : Option String :=
  transfers.foldl
    (fun address transfer =>
      if transfer.amount == target then some transfer.address else address)
    none

/-- One row of the transactions list store (lines 106–118): direction,
confirmed flag, formatted amount, formatted time, resolved address. -/
structure Row where
  direction     : String
  confirmed     : Bool
  displayAmount : String
  displayTime   : String
  address       : Option String
deriving Repr, DecidableEq

/-- Embedding of the per-transaction body of the reconciliation loop
(lines 92–118).  `fmtTime` abstracts the local-timezone timestamp
rendering of line 115, an environment effect the claims never inspect. -/
def makeRow (fmtTime : Int → String) (status : Status) (t : RawTransaction) : Row :=
  { direction     := if t.amount > 0 then "In" else "Out"
    confirmed     := t.unlockTime == 0 || t.unlockTime ≤ status.blockCount - 40
    displayAmount := formatCurrency t.amount
    displayTime   := fmtTime t.timestamp
    address       := findAddress t.transfers (desired_transfer_amount t) }

/-- Embedding of lines 84–118: the list store is cleared and repopulated
by iterating the fetched blocks in reverse, appending one row per
transaction of each block whose transaction list is non-empty. -/
def refreshStore (fmtTime : Int → String) (status : Status) (blocks : List Block) :
    List Row :=
  blocks.reverse.foldl
    (fun store block =>
      if block.transactions.isEmpty then store
      else block.transactions.foldl
        (fun store t => store ++ [makeRow fmtTime status t]) store)
    []

/-- Embedding of line 120: the status label text.  `now` abstracts the
current local wall-clock time string. -/
def statusLine (status : Status) (now : String) : String :=
  "Current block height: " ++ toString status.blockCount
    ++ " | Peer count " ++ toString status.peerCount
    ++ " | Last Updated " ++ now

/-- The requests `refresh_values` can issue to the wallet connection. -/
inductive Request where
  | getBalance
  | getAddresses
  | getStatus
  | getTransactions (blockCount : Int) (firstBlockIndex : Int) (addresses : List String)
deriving Repr, DecidableEq

/-- The wallet RPC endpoint as seen by one cycle: each call either
returns a response or raises (`none`). -/
structure Oracle where
  balance      : Option Balances
  addresses    : Option (List String)
  status       : Option Status
  transactions : Int → Int → List String → Option (List Block)

/-- The five pieces of displayed view state `refresh_values` mutates:
the two balance labels, the address text box, the transactions list
store, and the status label. -/
structure View where
  availableLabel : String
  lockedLabel    : String
  addressText    : String
  transactions   : List Row
  statusLabel    : String
deriving Repr, DecidableEq

/-- Embedding of `refresh_values` (lines 59–120), acting on the view
state `v` on screen when the cycle starts.  Returns the list of RPC
requests issued, the view state when the cycle ends (normally or by a
propagating exception), and whether the cycle ran to completion.  Each
mutation happens at the point the code performs it, so a failing call
leaves exactly the earlier mutations applied: the balance labels are set
right after `getBalance`, the address text right after `getAddresses`
(raising on an empty address list, line 74), and the list store and
status label only after `getTransactions` has succeeded. -/
def refresh_values (o : Oracle) (fmtTime : Int → String) (now : String) (v : View) :
    List Request × View × Bool :=
  match o.balance with
  | none => ([Request.getBalance], v, false)
  | some balances =>
    let v := { v with
      availableLabel := formatCurrency balances.availableBalance
      lockedLabel    := formatCurrency balances.lockedAmount }
    match o.addresses with
    | none => ([Request.getBalance, Request.getAddresses], v, false)
    | some addresses =>
      match addresses.head? with
      | none => ([Request.getBalance, Request.getAddresses], v, false)
      | some primary =>
        let v := { v with addressText := primary }
        match o.status with
        | none => ([Request.getBalance, Request.getAddresses, Request.getStatus], v, false)
        | some status =>
          match o.transactions status.blockCount 1 addresses with
          | none =>
            ([Request.getBalance, Request.getAddresses, Request.getStatus,
              Request.getTransactions status.blockCount 1 addresses], v, false)
          | some blocks =>
            let v := { v with
              transactions := refreshStore fmtTime status blocks
              statusLabel  := statusLine status now }
            ([Request.getBalance, Request.getAddresses, Request.getStatus,
              Request.getTransactions status.blockCount 1 addresses], v, true)

/-- Spec-side count for claim C2, following the spec's words: the number
of RawTransactions across all fetched blocks with a non-empty transfer
list. -/
def numNonEmptyTransferTxs (blocks : List Block) : Nat :=
  (blocks.map (fun b => (b.transactions.filter (fun t => ¬ t.transfers.isEmpty)).length)).sum

/-! ## Helper lemmas -/

theorem bitLenAux_zero (fuel : Nat) : bitLenAux fuel 0 = 0 := by
  cases fuel <;> rfl

theorem bitLenAux_bounds :
    ∀ (fuel m : Nat), m ≤ fuel → 1 ≤ m →
      2 ^ (bitLenAux fuel m - 1) ≤ m ∧ m < 2 ^ bitLenAux fuel m := by
  intro fuel
  induction fuel with
  | zero => intro m h1 h2; omega
  | succ fuel ih =>
    intro m hle hpos
    rw [bitLenAux, if_neg (by omega)]
    rcases Nat.lt_or_ge m 2 with hm | hm
    · have hm1 : m = 1 := by omega
      subst hm1
      norm_num [bitLenAux_zero]
    · have hdiv : m / 2 ≤ fuel := by omega
      have hdivpos : 1 ≤ m / 2 := by omega
      obtain ⟨ih1, ih2⟩ := ih (m / 2) hdiv hdivpos
      cases hL : bitLenAux fuel (m / 2) with
      | zero =>
        rw [hL] at ih2
        rw [pow_zero] at ih2
        omega
      | succ L =>
        rw [hL] at ih1 ih2
        have e1 : (L + 1) - 1 = L := rfl
        rw [e1] at ih1
        have goal1 : (L + 1 + 1) - 1 = L + 1 := rfl
        rw [goal1]
        simp only [pow_succ]
        have hx : 0 < 2 ^ L := Nat.pos_pow_of_pos L (by norm_num)
        constructor <;> omega

theorem bitLen_bounds (n : Nat) (h : 1 ≤ n) :
    2 ^ (bitLen n - 1) ≤ n ∧ n < 2 ^ bitLen n :=
  bitLenAux_bounds n n le_rfl h

/-- Half-even rounding lands within half a unit of the exact quotient:
`2 * |roundHalfEven n d * d - n| ≤ d`. -/
theorem roundHalfEven_err (n d : Nat) (hd : 0 < d) :
    2 * ((roundHalfEven n d : Int) * d - n) ≤ d ∧
    -(d : Int) ≤ 2 * ((roundHalfEven n d : Int) * d - n) := by
  have hdm : d * (n / d) + n % d = n := Nat.div_add_mod n d
  have hmlt : n % d < d := Nat.mod_lt n hd
  have hdmz : (d : Int) * ((n / d : Nat) : Int) + ((n % d : Nat) : Int) = n := by
    exact_mod_cast hdm
  rw [roundHalfEven]
  split_ifs with h1 h2 h3
  · have h1z : 2 * ((n % d : Nat) : Int) < d := by exact_mod_cast h1
    constructor <;> nlinarith [hdmz, h1z]
  · have h2z : (d : Int) < 2 * ((n % d : Nat) : Int) := by exact_mod_cast h2
    constructor <;> push_cast <;> nlinarith [hdmz, h2z]
  · have h12 : 2 * ((n % d : Nat) : Int) = d := by
      have a1 : ¬ (2 * (n % d) < d) := h1
      have a2 : ¬ (d < 2 * (n % d)) := h2
      have : 2 * (n % d) = d := by omega
      exact_mod_cast this
    constructor <;> nlinarith [hdmz, h12]
  · have h12 : 2 * ((n % d : Nat) : Int) = d := by
      have a1 : ¬ (2 * (n % d) < d) := h1
      have a2 : ¬ (d < 2 * (n % d)) := h2
      have : 2 * (n % d) = d := by omega
      exact_mod_cast this
    constructor <;> push_cast <;> nlinarith [hdmz, h12]

/-- An integer whose multiple of `2 * M` stays strictly inside
`(-2 * M, 2 * M)` is zero. -/
theorem scaled_eq (M d : Int) (hM : 0 < M) (h1 : 2 * M * d ≤ 2 * M - 1)
    (h2 : -(2 * M - 1) ≤ 2 * M * d) : d = 0 := by
  by_contra hd
  rcases lt_or_gt_of_ne hd with h | h
  · have hd1 : d ≤ -1 := by omega
    have hb : 2 * M * d ≤ 2 * M * (-1) := by
      apply mul_le_mul_of_nonneg_left hd1 (by positivity)
    linarith
  · have hd1 : 1 ≤ d := by omega
    have hb : 2 * M * 1 ≤ 2 * M * d := by
      apply mul_le_mul_of_nonneg_left hd1 (by positivity)
    linarith

/-- Rounding `a * M` to a grid of 100, then that result times 100 back to
the grid of `M`, recovers `a` when `M` exceeds the accumulated error. -/
theorem round_trip_one (a M : Nat) (hM : 101 ≤ M) :
    roundHalfEven (100 * roundHalfEven (a * M) 100) M = a := by
  have e1 := roundHalfEven_err (a * M) 100 (by norm_num)
  have e2 := roundHalfEven_err (100 * roundHalfEven (a * M) 100) M (by omega)
  set s0 := roundHalfEven (a * M) 100 with hs0
  set c := roundHalfEven (100 * s0) M with hc
  have key : 2 * (M : Int) * ((c : Int) - a)
      = 2 * ((c : Int) * M - (100 * s0 : Nat)) + 2 * ((s0 : Int) * 100 - (a * M : Nat)) := by
    push_cast
    ring
  have hb1 : 2 * (M : Int) * ((c : Int) - a) ≤ 2 * M - 1 := by
    rw [key]
    have := e1.1
    have := e2.1
    push_cast at *
    linarith
  have hb2 : -(2 * (M : Int) - 1) ≤ 2 * (M : Int) * ((c : Int) - a) := by
    rw [key]
    have := e1.2
    have := e2.2
    push_cast at *
    linarith
  have hz := scaled_eq (M : Int) ((c : Int) - a)
    (by exact_mod_cast Nat.lt_of_lt_of_le (by norm_num) hM) hb1 hb2
  have : (c : Int) = a := by omega
  exact_mod_cast this

/-- The coarser-exponent variant of `round_trip_one`, used when the
significand at the finer exponent would need 54 bits. -/
theorem round_trip_two (a M N : Nat) (hM : 101 ≤ M) (hN : N = 2 * M) :
    roundHalfEven (100 * roundHalfEven (a * N) 200) M = a := by
  subst hN
  have e1 := roundHalfEven_err (a * (2 * M)) 200 (by norm_num)
  have e2 := roundHalfEven_err (100 * roundHalfEven (a * (2 * M)) 200) M (by omega)
  set s1 := roundHalfEven (a * (2 * M)) 200 with hs1
  set c := roundHalfEven (100 * s1) M with hc
  have key : 2 * (2 * (M : Int)) * ((c : Int) - a)
      = 2 * (2 * ((c : Int) * M - (100 * s1 : Nat)))
        + 2 * ((s1 : Int) * 200 - (a * (2 * M) : Nat)) := by
    push_cast
    ring
  have hb1 : 2 * (2 * (M : Int)) * ((c : Int) - a) ≤ 2 * (2 * M) - 1 := by
    rw [key]
    have := e1.1
    have := e2.1
    push_cast at *
    linarith
  have hb2 : -(2 * (2 * (M : Int)) - 1) ≤ 2 * (2 * (M : Int)) * ((c : Int) - a) := by
    rw [key]
    have := e1.2
    have := e2.2
    push_cast at *
    linarith
  have hz := scaled_eq (2 * (M : Int)) ((c : Int) - a)
    (by exact_mod_cast Nat.lt_of_lt_of_le (by norm_num) (by omega : 101 ≤ 2 * M)) hb1 hb2
  have : (c : Int) = a := by omega
  exact_mod_cast this

/-- In the exact range of the double pipeline — amounts below `2 ^ 52`
smallest units — the three roundings cancel and the displayed cent count
is the amount itself. -/
theorem pyDisplayCents_exact (a : Nat) (ha : a < 2 ^ 52) : pyDisplayCents a = a := by
  rcases Nat.eq_zero_or_pos a with h0 | h1
  · subst h0; decide
  have h53 : a ≤ 2 ^ 53 := by
    have : (2 : Nat) ^ 52 ≤ 2 ^ 53 := by norm_num
    omega
  have hne : a ≠ 0 := by omega
  obtain ⟨hlo, hhi⟩ := bitLen_bounds a h1
  have hk52 : bitLen a ≤ 52 := by
    by_contra hgt
    push_neg at hgt
    have h2 : (2 : Nat) ^ 52 ≤ 2 ^ (bitLen a - 1) :=
      Nat.pow_le_pow_right (by norm_num) (by omega)
    omega
  have hnd : nearestDoubleNat a = a := by rw [nearestDoubleNat, if_pos h53]
  rw [pyDisplayCents, hnd, divideBy100, if_neg hne]
  have hden0 : bitLen a - 60 = 0 := by omega
  simp only [hden0, pow_zero, mul_one]
  have hM : (101 : Nat) ≤ 2 ^ (60 - bitLen a) := by
    have : (2 : Nat) ^ 8 ≤ 2 ^ (60 - bitLen a) :=
      Nat.pow_le_pow_right (by norm_num) (by omega)
    omega
  by_cases hs : roundHalfEven (a * 2 ^ (60 - bitLen a)) 100 < 2 ^ 53
  · rw [if_pos hs]
    rw [centsOfDouble, if_neg (by omega : ¬ (0 : Int) ≤ (bitLen a : Int) - 60)]
    have htn : (-((bitLen a : Int) - 60)).toNat = 60 - bitLen a := by omega
    rw [htn]
    exact round_trip_one a (2 ^ (60 - bitLen a)) hM
  · rw [if_neg hs]
    rw [centsOfDouble, if_neg (by omega : ¬ (0 : Int) ≤ (bitLen a : Int) - 59)]
    have htn : (-((bitLen a : Int) - 59)).toNat = 59 - bitLen a := by omega
    rw [htn]
    have hM7 : (101 : Nat) ≤ 2 ^ (59 - bitLen a) := by
      have : (2 : Nat) ^ 7 ≤ 2 ^ (59 - bitLen a) :=
        Nat.pow_le_pow_right (by norm_num) (by omega)
      omega
    have hNN : 2 ^ (60 - bitLen a) = 2 * 2 ^ (59 - bitLen a) := by
      rw [show 60 - bitLen a = (59 - bitLen a) + 1 from by omega, pow_succ]
      ring
    exact round_trip_two a (2 ^ (59 - bitLen a)) (2 ^ (60 - bitLen a)) hM7 hNN

theorem foldl_append_one {α β : Type} (g : α → β) :
    ∀ (l : List α) (acc : List β),
      l.foldl (fun st t => st ++ [g t]) acc = acc ++ l.map g := by
  intro l
  induction l with
  | nil => intro acc; simp
  | cons t l ih => intro acc; simp [ih]

theorem refreshStore_aux (f : Int → String) (s : Status) :
    ∀ (l : List Block) (acc : List Row),
      l.foldl (fun store block =>
        if block.transactions.isEmpty then store
        else block.transactions.foldl
          (fun store t => store ++ [makeRow f s t]) store) acc
      = acc ++ (l.map (fun b => b.transactions.map (makeRow f s))).flatten := by
  intro l
  induction l with
  | nil => intro acc; simp
  | cons b l ih =>
    intro acc
    rw [List.foldl_cons, ih]
    by_cases h : b.transactions.isEmpty
    · rw [if_pos h]
      rw [List.isEmpty_iff] at h
      simp [h]
    · rw [if_neg h, foldl_append_one]
      simp

/-- The repopulated list store, described denotationally: one row per
transaction, blocks in reverse fetch order, transactions of a block in
their original order. -/
theorem refreshStore_eq (f : Int → String) (s : Status) (blocks : List Block) :
    refreshStore f s blocks
      = (blocks.reverse.map (fun b => b.transactions.map (makeRow f s))).flatten := by
  rw [refreshStore, refreshStore_aux]
  rfl

theorem findAddress_aux (target : Int) :
    ∀ (l : List Transfer) (acc : Option String),
      l.foldl (fun address transfer =>
        if transfer.amount == target then some transfer.address else address) acc
      = ((l.filter (fun tr => tr.amount == target)).getLast?.map
          (fun tr => some tr.address)).getD acc := by
  intro l
  induction l with
  | nil => intro acc; rfl
  | cons tr l ih =>
    intro acc
    by_cases h : tr.amount = target
    · rw [List.foldl_cons, ih]
      rw [List.filter_cons_of_pos (by simpa using h)]
      simp only [beq_iff_eq, h, if_pos rfl]
      cases hfl : l.filter (fun tr => tr.amount == target) with
      | nil => simp
      | cons y ys =>
        rw [List.getLast?_cons_cons]
        cases hl : (y :: ys).getLast? with
        | none => simp at hl
        | some x => simp
    · rw [List.foldl_cons, ih]
      rw [List.filter_cons_of_neg (by simpa using h)]
      simp only [beq_iff_eq, if_neg h]

/-- The transfer scan keeps overwriting `address`, so the resolved
address is that of the last transfer whose amount equals the target. -/
theorem findAddress_eq_last (transfers : List Transfer) (target : Int) :
    findAddress transfers target
      = ((transfers.filter (fun tr => tr.amount == target)).getLast?).map Transfer.address := by
  rw [findAddress, findAddress_aux]
  cases (transfers.filter (fun tr => tr.amount == target)).getLast? <;> rfl

/-! ## Claim theorems -/

/-- C2, counterexample: a transaction whose transfer list is empty still
produces a record (the code only guards on the block's transaction list,
never on the transfer list), so the record count disagrees with the
claimed count at this input. -/
theorem emptyTransfersStillCounted :
    (refreshStore (fun _ => "") ⟨100, 5⟩ [⟨[⟨0, 0, 0, 0, []⟩]⟩]).length
        ≠ numNonEmptyTransferTxs [⟨[⟨0, 0, 0, 0, []⟩]⟩] ∧
    (refreshStore (fun _ => "") ⟨100, 5⟩ [⟨[⟨0, 0, 0, 0, []⟩]⟩]).length = 1 ∧
    numNonEmptyTransferTxs [⟨[⟨0, 0, 0, 0, []⟩]⟩] = 0 := by
  refine ⟨by decide, by decide, by decide⟩

/-- C2, amended: the number of reconciled records produced in a cycle
equals the total number of RawTransactions across all fetched blocks;
a transaction with an empty transfer list produces a record too. -/
theorem refreshStore_count (f : Int → String) (s : Status) (blocks : List Block) :
    (refreshStore f s blocks).length = (blocks.map (fun b => b.transactions.length)).sum := by
  rw [refreshStore_eq, List.length_flatten, List.map_reverse, List.map_reverse,
    List.sum_reverse, List.map_map]
  simp only [Function.comp_def, List.length_map]

/-- C3: the reconciled confirmed flag holds exactly when `unlockTime == 0`
or `unlockTime <= blockCount - 40`; in particular, for nonzero unlock
times, `unlockTime == blockCount - 40` is confirmed and
`unlockTime == blockCount - 39` is not. -/
theorem confirmed_flag_spec (f : Int → String) (s : Status) (t : RawTransaction) :
    ((makeRow f s t).confirmed = true ↔ (t.unlockTime = 0 ∨ t.unlockTime ≤ s.blockCount - 40)) ∧
    (t.unlockTime = s.blockCount - 40 → (makeRow f s t).confirmed = true) ∧
    (t.unlockTime = s.blockCount - 39 → t.unlockTime ≠ 0 → (makeRow f s t).confirmed = false) := by
  refine ⟨?_, ?_, ?_⟩ <;> simp [makeRow] <;> omega

/-- Witness for C3 at `blockCount = 100`: unlock time 60 is confirmed,
unlock time 61 is not. -/
theorem confirmed_flag_spec_witness :
    (makeRow (fun _ => "") ⟨100, 0⟩ ⟨5, 0, 60, 0, []⟩).confirmed = true ∧
    (makeRow (fun _ => "") ⟨100, 0⟩ ⟨5, 0, 61, 0, []⟩).confirmed = false :=
  ⟨(confirmed_flag_spec _ _ _).2.1 (by decide),
   (confirmed_flag_spec _ _ _).2.2 (by decide) (by decide)⟩

/-- C4, counterexample: with `amount = -150, fee = 10` the code's target
is `(amount + fee) * -1 = 140`, not `160`, and against the transfers
`[{A,100},{B,160}]` no transfer matches, so the counterparty is absent
rather than `B`. -/
theorem target_example_claim_false :
    desired_transfer_amount ⟨-150, 10, 0, 0, [⟨"A", 100⟩, ⟨"B", 160⟩]⟩ = 140 ∧
    desired_transfer_amount ⟨-150, 10, 0, 0, [⟨"A", 100⟩, ⟨"B", 160⟩]⟩ ≠ 160 ∧
    (makeRow (fun _ => "") ⟨1000, 0⟩ ⟨-150, 10, 0, 0, [⟨"A", 100⟩, ⟨"B", 160⟩]⟩).address
        ≠ some "B" ∧
    (makeRow (fun _ => "") ⟨1000, 0⟩ ⟨-150, 10, 0, 0, [⟨"A", 100⟩, ⟨"B", 160⟩]⟩).address
        = none := by
  refine ⟨by decide, by decide, by decide, by decide⟩

/-- C4, amended: the target is `-(amount + fee)` for outgoing and
`amount` otherwise; `amount = -150, fee = 10` gives target `140`, and
against transfers `[{A,100},{B,140}]` the counterparty resolves to `B`. -/
theorem desired_transfer_amount_spec (t : RawTransaction) :
    (t.amount < 0 → desired_transfer_amount t = -(t.amount + t.fee)) ∧
    (0 ≤ t.amount → desired_transfer_amount t = t.amount) ∧
    desired_transfer_amount ⟨-150, 10, 0, 0, []⟩ = 140 ∧
    (makeRow (fun _ => "") ⟨1000, 0⟩ ⟨-150, 10, 0, 0, [⟨"A", 100⟩, ⟨"B", 140⟩]⟩).address
        = some "B" := by
  refine ⟨?_, ?_, by decide, by decide⟩
  · intro h
    rw [desired_transfer_amount, if_pos h]
    ring
  · intro h
    rw [desired_transfer_amount, if_neg (not_lt.mpr h)]

/-- Witness for C4 amended, at an outgoing and an incoming amount. -/
theorem desired_transfer_amount_spec_witness :
    desired_transfer_amount ⟨-150, 10, 0, 0, []⟩ = -((-150) + 10) ∧
    desired_transfer_amount ⟨200, 10, 0, 0, []⟩ = 200 :=
  ⟨(desired_transfer_amount_spec _).1 (by decide),
   (desired_transfer_amount_spec _).2.1 (by decide)⟩

/-- C5: the resolved counterparty is the address of the last transfer in
iteration order whose amount equals the target; with no match the address
is absent, and the transaction record is produced regardless. -/
theorem counterparty_last_match (transfers : List Transfer) (target : Int) :
    (findAddress transfers target
        = ((transfers.filter (fun tr => tr.amount == target)).getLast?).map Transfer.address) ∧
    ((∀ tr ∈ transfers, tr.amount ≠ target) → findAddress transfers target = none) ∧
    (∀ (f : Int → String) (s : Status) (t : RawTransaction),
        refreshStore f s [⟨[t]⟩] = [makeRow f s t]) := by
  refine ⟨findAddress_eq_last transfers target, ?_, ?_⟩
  · intro h
    rw [findAddress_eq_last]
    have hnil : transfers.filter (fun tr => tr.amount == target) = [] := by
      simp only [List.filter_eq_nil_iff, beq_iff_eq]
      exact h
    rw [hnil]
    rfl
  · intro f s t
    rw [refreshStore_eq]
    simp

/-- Witness for C5: two matching transfers resolve to the later one, a
non-matching list resolves to none, and the record is still produced. -/
theorem counterparty_last_match_witness :
    findAddress [⟨"A", 7⟩, ⟨"B", 7⟩] 7
        = (([⟨"A", 7⟩, ⟨"B", 7⟩].filter (fun tr => tr.amount == 7)).getLast?).map
            Transfer.address ∧
    findAddress [⟨"A", 1⟩] 2 = none ∧
    refreshStore (fun _ => "") ⟨0, 0⟩ [⟨[⟨3, 0, 0, 0, []⟩]⟩]
        = [makeRow (fun _ => "") ⟨0, 0⟩ ⟨3, 0, 0, 0, []⟩] :=
  ⟨(counterparty_last_match _ _).1,
   (counterparty_last_match [⟨"A", 1⟩] 2).2.1 (by decide),
   (counterparty_last_match [] 0).2.2 _ _ _⟩

/-- C6: the output record order is the reverse of the fetched block order
with each block's transaction order preserved; three blocks fetched
oldest-first yield the third block's rows, then the second's, then the
first's. -/
theorem reconciled_order (f : Int → String) (s : Status) :
    (∀ blocks : List Block,
        refreshStore f s blocks
          = (blocks.reverse.map (fun b => b.transactions.map (makeRow f s))).flatten) ∧
    (∀ b1 b2 b3 : Block,
        refreshStore f s [b1, b2, b3]
          = b3.transactions.map (makeRow f s) ++ b2.transactions.map (makeRow f s)
              ++ b1.transactions.map (makeRow f s)) := by
  refine ⟨refreshStore_eq f s, ?_⟩
  intro b1 b2 b3
  rw [refreshStore_eq]
  simp

/-- C8: the reconciled direction is `In` exactly for positive amounts and
`Out` exactly for non-positive amounts, zero included. -/
theorem direction_spec (f : Int → String) (s : Status) (t : RawTransaction) :
    ((makeRow f s t).direction = "In" ↔ 0 < t.amount) ∧
    ((makeRow f s t).direction = "Out" ↔ t.amount ≤ 0) ∧
    (t.amount = 0 → (makeRow f s t).direction = "Out") := by
  by_cases h : 0 < t.amount <;> simp [makeRow, h] <;> omega

/-- Witness for C8 at a zero amount. -/
theorem direction_spec_witness :
    (makeRow (fun _ => "") ⟨0, 0⟩ ⟨0, 0, 0, 0, []⟩).direction = "Out" :=
  (direction_spec _ _ _).2.2 rfl

/-- C1, counterexample: a cycle whose second call (`getAddresses`) fails
leaves the balance labels already rewritten, so the previously displayed
view state is not left exactly as it was before the cycle started. -/
theorem partial_update_on_failure :
    ((refresh_values ⟨some ⟨123456, 0⟩, none, none, fun _ _ _ => none⟩ (fun _ => "") ""
        ⟨"0.00", "0.00", "addr", [], "st"⟩).2.2 = false) ∧
    (refresh_values ⟨some ⟨123456, 0⟩, none, none, fun _ _ _ => none⟩ (fun _ => "") ""
        ⟨"0.00", "0.00", "addr", [], "st"⟩).2.1
        ≠ ⟨"0.00", "0.00", "addr", [], "st"⟩ := by
  refine ⟨by decide, by decide⟩

/-- C1, amended: a failing cycle leaves exactly the view pieces written
before the failing call: a `getBalance` failure leaves the whole view
unchanged; a `getAddresses` failure leaves the balance labels updated; a
`getStatus` failure additionally leaves the address text updated; a
`getTransactions` failure the same; the transaction list and status line
are never touched by a failing cycle. -/
theorem refresh_failure_state (o : Oracle) (f : Int → String) (now : String) (v : View) :
    (o.balance = none → refresh_values o f now v = ([Request.getBalance], v, false)) ∧
    (∀ b, o.balance = some b → o.addresses = none →
        refresh_values o f now v
          = ([Request.getBalance, Request.getAddresses],
             { v with availableLabel := formatCurrency b.availableBalance
                      lockedLabel := formatCurrency b.lockedAmount }, false)) ∧
    (∀ b a0 rest, o.balance = some b → o.addresses = some (a0 :: rest) → o.status = none →
        refresh_values o f now v
          = ([Request.getBalance, Request.getAddresses, Request.getStatus],
             { v with availableLabel := formatCurrency b.availableBalance
                      lockedLabel := formatCurrency b.lockedAmount
                      addressText := a0 }, false)) ∧
    (∀ b a0 rest s, o.balance = some b → o.addresses = some (a0 :: rest) →
        o.status = some s → o.transactions s.blockCount 1 (a0 :: rest) = none →
        refresh_values o f now v
          = ([Request.getBalance, Request.getAddresses, Request.getStatus,
              Request.getTransactions s.blockCount 1 (a0 :: rest)],
             { v with availableLabel := formatCurrency b.availableBalance
                      lockedLabel := formatCurrency b.lockedAmount
                      addressText := a0 }, false)) := by
  refine ⟨?_, ?_, ?_, ?_⟩
  · intro h
    simp [refresh_values, h]
  · intro b hb ha
    simp [refresh_values, hb, ha]
  · intro b a0 rest hb ha hs
    simp [refresh_values, hb, ha, hs]
  · intro b a0 rest s hb ha hs ht
    simp [refresh_values, hb, ha, hs, ht]

/-- Witness for C1 amended: a concrete `getAddresses` failure keeps the
old address text, transaction rows and status line while the balance
labels are rewritten. -/
theorem refresh_failure_state_witness :
    refresh_values ⟨some ⟨123456, 78⟩, none, none, fun _ _ _ => none⟩ (fun _ => "") ""
        ⟨"a", "b", "c", [], "d"⟩
      = ([Request.getBalance, Request.getAddresses],
         { availableLabel := formatCurrency 123456, lockedLabel := formatCurrency 78,
           addressText := "c", transactions := [], statusLabel := "d" }, false) :=
  (refresh_failure_state _ _ _ _).2.1 ⟨123456, 78⟩ rfl rfl

/-- C7, counterexample: the float pipeline of the code differs from the
exact decimal rendering at `amount = 2 ^ 53 + 1`: the int-to-float
conversion drops the final unit, so Python displays a cent count of
`2 ^ 53` — the string ends in 92 where exact division by 100 ends in
93. -/
theorem float_rendering_differs :
    formatCurrency 9007199254740993 ≠ decimalCurrency 9007199254740993 ∧
    formatCurrency 9007199254740993 = "90,071,992,547,409.92" ∧
    decimalCurrency 9007199254740993 = "90,071,992,547,409.93" := by
  refine ⟨by decide, by decide, by decide⟩

/-- C7, amended: for every integer amount of magnitude below `2 ^ 52`
smallest units, the displayed currency string is the amount divided by
100 rendered with thousands separators and exactly two decimal places;
125000 renders as the grouped string, 0 as two zero decimals, negative
amounts carry a leading minus with the same grouping, and both balance
labels and per-row display amounts use this rendering. -/
theorem currency_format_spec :
    (∀ n : Int, n.natAbs < 2 ^ 52 → formatCurrency n = decimalCurrency n) ∧
    formatCurrency 125000 = "1,250.00" ∧
    formatCurrency 0 = "0.00" ∧
    (∀ n : Int, n < 0 → formatCurrency n = "-" ++ formatCurrency (-n)) ∧
    (∀ (o : Oracle) (f : Int → String) (now : String) (v : View) (b : Balances),
        o.balance = some b →
          (refresh_values o f now v).2.1.availableLabel = formatCurrency b.availableBalance ∧
          (refresh_values o f now v).2.1.lockedLabel = formatCurrency b.lockedAmount) ∧
    (∀ (f : Int → String) (s : Status) (t : RawTransaction),
        (makeRow f s t).displayAmount = formatCurrency t.amount) := by
  refine ⟨?_, by decide, by decide, ?_, ?_, fun f s t => rfl⟩
  · intro n h
    rw [formatCurrency, decimalCurrency, pyDisplayCents_exact n.natAbs h]
  · intro n h
    have h2 : ¬(-n < 0) := by omega
    rw [formatCurrency, if_pos h, formatCurrency, if_neg h2, Int.natAbs_neg]
  · intro o f now v b hb
    cases ha : o.addresses with
    | none => simp [refresh_values, hb, ha]
    | some addrs =>
      cases addrs with
      | nil => simp [refresh_values, hb, ha]
      | cons a0 rest =>
        cases hs : o.status with
        | none => simp [refresh_values, hb, ha, hs]
        | some st =>
          cases ht : o.transactions st.blockCount 1 (a0 :: rest) with
          | none => simp [refresh_values, hb, ha, hs, ht]
          | some blks => simp [refresh_values, hb, ha, hs, ht]

/-- Witness for C7 amended: the float pipeline agrees with exact decimal
rendering at 125000, a negative amount carries the minus sign, and a
concrete successful `getBalance` writes the same formatter's output. -/
theorem currency_format_spec_witness :
    formatCurrency 125000 = decimalCurrency 125000 ∧
    (formatCurrency (-125000) = "-" ++ formatCurrency (-(-125000))) ∧
    (refresh_values ⟨some ⟨123, 456⟩, none, none, fun _ _ _ => none⟩ (fun _ => "") ""
        ⟨"", "", "", [], ""⟩).2.1.availableLabel = formatCurrency 123 :=
  ⟨currency_format_spec.1 125000 (by decide),
   currency_format_spec.2.2.2.1 (-125000) (by decide),
   (currency_format_spec.2.2.2.2.1 _ _ "" _ ⟨123, 456⟩ rfl).1⟩

/-- C9: a completed cycle issues exactly the four requests getBalance,
getAddresses, getStatus, getTransactions in that order, the last one
scoped to the blockCount just returned by getStatus, firstBlockIndex 1,
and the full address list just returned by getAddresses. -/
theorem fetch_call_sequence (o : Oracle) (f : Int → String) (now : String) (v : View)
    (b : Balances) (a0 : String) (rest : List String) (s : Status) (blks : List Block)
    (hb : o.balance = some b) (ha : o.addresses = some (a0 :: rest))
    (hs : o.status = some s)
    (ht : o.transactions s.blockCount 1 (a0 :: rest) = some blks) :
    (refresh_values o f now v).1
        = [Request.getBalance, Request.getAddresses, Request.getStatus,
           Request.getTransactions s.blockCount 1 (a0 :: rest)] ∧
    (refresh_values o f now v).2.2 = true := by
  simp [refresh_values, hb, ha, hs, ht]

/-- Witness for C9 at a concrete oracle with one address. -/
theorem fetch_call_sequence_witness :
    (refresh_values ⟨some ⟨1, 2⟩, some ["X"], some ⟨50, 3⟩, fun _ _ _ => some []⟩
        (fun _ => "") "" ⟨"", "", "", [], ""⟩).1
      = [Request.getBalance, Request.getAddresses, Request.getStatus,
         Request.getTransactions 50 1 ["X"]] ∧
    (refresh_values ⟨some ⟨1, 2⟩, some ["X"], some ⟨50, 3⟩, fun _ _ _ => some []⟩
        (fun _ => "") "" ⟨"", "", "", [], ""⟩).2.2 = true :=
  fetch_call_sequence _ _ "" _ ⟨1, 2⟩ "X" [] ⟨50, 3⟩ [] rfl rfl rfl rfl

/-- C10: when `getAddresses` returns an empty list the cycle aborts at
the primary-address selection with the balance labels already updated,
and neither getStatus nor getTransactions is issued. -/
theorem empty_addresses_aborts (o : Oracle) (f : Int → String) (now : String) (v : View)
    (b : Balances) (hb : o.balance = some b) (ha : o.addresses = some []) :
    refresh_values o f now v
      = ([Request.getBalance, Request.getAddresses],
         { v with availableLabel := formatCurrency b.availableBalance
                  lockedLabel := formatCurrency b.lockedAmount }, false) := by
  simp [refresh_values, hb, ha]

/-- Witness for C10 at a concrete oracle returning no addresses. -/
theorem empty_addresses_aborts_witness :
    refresh_values ⟨some ⟨9, 8⟩, some [], some ⟨50, 3⟩, fun _ _ _ => some []⟩
        (fun _ => "") "" ⟨"a", "b", "c", [], "d"⟩
      = ([Request.getBalance, Request.getAddresses],
         { availableLabel := formatCurrency 9, lockedLabel := formatCurrency 8,
           addressText := "c", transactions := [], statusLabel := "d" }, false) :=
  empty_addresses_aborts _ _ "" _ ⟨9, 8⟩ rfl rfl
